import Mathlib

/-!
Shallow embedding of the bidding policy in `example_agents/my_agent.py`.

Modelling conventions:
* Python floats are modelled as `ℚ` (the policy only performs field
  arithmetic, `min`/`max`, and comparisons on them).
* A raised exception is modelled by `Option`: `none` means the Python call
  raised, `some v` means it returned `v`.
* A dictionary field that may be missing or unparsable is modelled by `Fld`:
  `absent` (key not present), `malformed` (present but `int(…)`/`float(…)`
  raises on it), or `val x` (parses to `x`).
* `random.uniform(0.0, TIE_JITTER_MAX)` is modelled by an explicit jitter
  oracle `J : String → ℚ` giving the jitter drawn for each auction id.
* The module-global `_learned_win_prices` (a `defaultdict(float)`, default 0)
  is modelled as an explicit total function `Table` passed into `make_bid`.
* Python's stable `list.sort(reverse=True, key=…)` is modelled by
  `List.mergeSort` (stable) on the reversed key order.
* Python's `round(x, 2)` (round-half-to-even at two decimals) is modelled by
  `round2` below.
-/

/-- Dashboard constant `ALPHA_FAIR_PRICE_PER_POINT = 15.0`. -/
def ALPHA_FAIR_PRICE_PER_POINT : ℚ := 15

/-- Dashboard constant `WIN_MARGIN = 1.05`. -/
def WIN_MARGIN : ℚ := 21/20

/-- Dashboard constant `MAX_SPEND_FRACTION = 0.95`. -/
def MAX_SPEND_FRACTION : ℚ := 19/20

/-- Dashboard constant `MIN_BID = 1.0`. -/
def MIN_BID : ℚ := 1

/-- Dashboard constant `TIE_JITTER_MAX = 3.0`. -/
def TIE_JITTER_MAX : ℚ := 3

/-- Dashboard constant `LEARN_DECAY = 0.8`. -/
def LEARN_DECAY : ℚ := 4/5

/-- Dashboard constant `CAP_BID_AT_GOLD = True`. -/
def CAP_BID_AT_GOLD : Bool := true

/-- Dashboard constant `IGNORE_LOW_EV = 0.5`. -/
def IGNORE_LOW_EV : ℚ := 1/2

/-- A dictionary field as seen by the policy: missing, unparsable, or a value. -/
inductive Fld (α : Type) where
  | absent : Fld α
  | malformed : Fld α
  | val : α → Fld α
deriving DecidableEq

/-- `int(a["k"]) : raises on a missing or unparsable field. -/
def getInt (f : Fld ℤ) : Option ℤ :=
  match f with
  | .val z => some z
  | _ => none

/-- `int(a.get("k", 0))` : a missing field defaults to `0`, an unparsable one raises. -/
def getIntD (f : Fld ℤ) : Option ℤ :=
  match f with
  | .val z => some z
  | .absent => some 0
  | .malformed => none

/-- One live auction record: the `"die"`, `"num"` and `"bonus"` fields. -/
structure RawAuction where
  die : Fld ℤ
  num : Fld ℤ
  bonus : Fld ℤ
deriving DecidableEq

/-- One previous-round outcome record: same shape fields plus the ordered
`"bids"` list (winner first); each entry is the parse result of the bid
amount extracted from it (`bids[0][1]` or `bids[0]["bid"]`). A missing or
`None` `"bids"` key behaves as the empty list (`info.get("bids") or []`). -/
structure RawOutcome extends RawAuction where
  bids : List (Fld ℚ)
deriving DecidableEq

/-- The module-global `_learned_win_prices : defaultdict(float)`: a total map
from auction shape `(die, num, bonus)` to learned price, default `0`. -/
def Table : Type := (ℤ × ℤ × ℤ) → ℚ

/-- Dictionary update `t[k] = v`. -/
def tupd (t : Table) (k : ℤ × ℤ × ℤ) (v : ℚ) : Table :=
  fun k' => if k' = k then v else t k'

/-- `_auction_key(a) = (int(a["die"]), int(a["num"]), int(a.get("bonus", 0)))`. -/
def _auction_key (a : RawAuction) : Option (ℤ × ℤ × ℤ) := do
  let d ← getInt a.die
  let n ← getInt a.num
  let b ← getIntD a.bonus
  return (d, n, b)

/-- `_expected_points(a) = float(a["num"]) * (float(a["die"]) + 1.0) / 2.0 +
float(a.get("bonus", 0.0))`. -/
def _expected_points (a : RawAuction) : Option ℚ := do
  let n ← getInt a.num
  let d ← getInt a.die
  let b ← getIntD a.bonus
  return (n : ℚ) * ((d : ℚ) + 1) / 2 + (b : ℚ)

/-- `_ema_update(old, new, decay)`: `new` if `old <= 0`, else the EWMA blend. -/
def _ema_update (old new decay : ℚ) : ℚ :=
  if old ≤ 0 then new else decay * old + (1 - decay) * new

/-- `_estimate_competitiveness(states, n_auctions)`, taking the two lengths:
`max(1.0, max(1, len(states)) / max(1, n_auctions))` (true division). -/
def _estimate_competitiveness (nStates nAuctions : ℕ) : ℚ :=
  max 1 (((max 1 nStates : ℕ) : ℚ) / ((max 1 nAuctions : ℕ) : ℚ))

/-- The bank-state structure, per README: forward-looking rate and cap lists,
index 0 = next round. `none` models an absent/empty `bank_state`. -/
structure BankState where
  bank_interest_per_round : List ℚ
  bank_limit_per_round : List ℚ

/-- `_reserve_for_interest(gold, bank_state)`: `0` on a missing schedule, a
failed field access (`try`/`except`), or rate `r <= 0`; otherwise
`max(0, min(min(cap, gold) * min(0.5, 2r), gold * 0.5))`. -/
def _reserve_for_interest (gold : ℚ) (bank_state : Option BankState) : ℚ :=
  match bank_state with
  | none => 0
  | some b =>
    match b.bank_interest_per_round.head?, b.bank_limit_per_round.head? with
    | some r, some cap =>
      if r ≤ 0 then 0
      else
        let reserve_frac := min (1/2) (2 * r)
        let target_reserve := min cap gold * reserve_frac
        max 0 (min target_reserve (gold * (1/2)))
    | _, _ => 0

/-- The body of one iteration of `_learn_from_prev`'s loop, up to the table
update: `some (key, winning_bid)` if the record parses and has a first bid,
`none` if the record is skipped (empty `bids`, or a caught exception). -/
def learnRecord (info : RawOutcome) : Option ((ℤ × ℤ × ℤ) × ℚ) := do
  let k ← _auction_key info.toRawAuction
  match info.bids with
  | [] => none
  | b0 :: _ =>
    match b0 with
    | .val w => some (k, w)
    | _ => none

/-- One iteration of `_learn_from_prev`: a skipped record leaves the table
unchanged, otherwise `_learned_win_prices[k] = _ema_update(_learned_win_prices[k],
win_bid, LEARN_DECAY)`. -/
def learnStep (t : Table) (info : RawOutcome) : Table :=
  match learnRecord info with
  | none => t
  | some (k, w) => tupd t k (_ema_update (t k) w LEARN_DECAY)

/-- `_learn_from_prev(prev_auctions)`: fold the per-record update over the
outcome records (dict iteration order), starting from the current table. -/
def _learn_from_prev (prev_auctions : List RawOutcome) (t : Table) : Table :=
  prev_auctions.foldl learnStep t

/-- `_suggest_bid_for_auction(a_id, a, competitiveness, available)` (the
`a_id` parameter is unused in the source body); `jitter` is the value drawn
by `random.uniform(0.0, TIE_JITTER_MAX)` and `t` the learned-price table. -/
def _suggest_bid_for_auction (a : RawAuction) (competitiveness available jitter : ℚ)
    (t : Table) : Option ℚ := do
  let ev ← _expected_points a
  if ev < IGNORE_LOW_EV then
    return 0
  else
    let k ← _auction_key a
    let learned := t k
    let fair :=
      if learned > 0 then learned * WIN_MARGIN
      else ALPHA_FAIR_PRICE_PER_POINT * ev * (3/4 + 1/4 * competitiveness)
    let fair := if CAP_BID_AT_GOLD then min fair (max 0 available) else fair
    let bid := max MIN_BID (fair + jitter)
    return max 0 bid

/-- Round-half-to-even to an integer (Python's `round(q)` on exact values). -/
def roundHalfEven (q : ℚ) : ℤ :=
  let f := ⌊q⌋
  let r := q - f
  if r < 1/2 then f
  else if r > 1/2 then f + 1
  else if Even f then f else f + 1

/-- Python's `round(q, 2)`: round-half-to-even at two decimal places. -/
def round2 (q : ℚ) : ℚ := (roundHalfEven (q * 100) : ℚ) / 100

/-- `my_gold`: `float(states.get(agent_id, {}).get("gold", 0.0))` — `0` when
the agent or its `"gold"` field is absent, raising when it is unparsable. -/
def goldOf (agent_id : String) (states : List (String × Fld ℚ)) : Option ℚ :=
  match states.lookup agent_id with
  | none => some 0
  | some .absent => some 0
  | some .malformed => none
  | some (.val g) => some g

/-- Lines 131–133 of `make_bid`: `spendable = max(0.0, my_gold *
MAX_SPEND_FRACTION - _reserve_for_interest(my_gold, bank_state))`. -/
def spendableOf (gold : ℚ) (bank_state : Option BankState) : ℚ :=
  max 0 (gold * MAX_SPEND_FRACTION - _reserve_for_interest gold bank_state)

/-- The planning loop of `make_bid` (lines 138–144): for each auction, in
order, compute the suggested bid and EV and append
`(ev / max(1.0, suggested), a_id, suggested)`; an uncaught exception in any
iteration propagates (there is no `try` around this loop). -/
def planFor : List (String × RawAuction) → ℚ → ℚ → (String → ℚ) → Table →
    Option (List (ℚ × String × ℚ))
  | [], _, _, _, _ => some []
  | p :: rest, comp, spendable, J, t => do
    let suggested ← _suggest_bid_for_auction p.2 comp spendable (J p.1) t
    let ev ← _expected_points p.2
    let tail ← planFor rest comp spendable J t
    return (ev / max 1 suggested, p.1, suggested) :: tail

/-- `plan.sort(reverse=True, key=lambda x: x[0])`: stable sort, descending
on the efficiency component. -/
def sortPlan (l : List (ℚ × String × ℚ)) : List (ℚ × String × ℚ) :=
  l.mergeSort (fun x y => decide (y.1 ≤ x.1))

/-- The allocation loop of `make_bid` (lines 149–158): greedily walk the
sorted plan; skip entries with `proposed <= 0` or `remaining <= 0`; commit
`bid = min(proposed, remaining)` unless `bid < MIN_BID`; record
`round(bid, 2)` and decrement `remaining` by the (unrounded) `bid`. -/
def alloc : List (ℚ × String × ℚ) → ℚ → List (String × ℚ)
  | [], _ => []
  | e :: rest, remaining =>
    if e.2.2 ≤ 0 ∨ remaining ≤ 0 then alloc rest remaining
    else
      let bid := min e.2.2 remaining
      if bid < MIN_BID then alloc rest remaining
      else (e.2.1, round2 bid) :: alloc rest (remaining - bid)

/-- `make_bid(agent_id, current_round, states, auctions, prev_auctions,
bank_state)` with the jitter oracle `J` and incoming learned-price table `t0`
made explicit. Only the learning step is guarded by `try`/`except`. -/
def make_bid (agent_id : String) (current_round : ℤ)
    (states : List (String × Fld ℚ)) (auctions : List (String × RawAuction))
    (prev_auctions : List RawOutcome) (bank_state : Option BankState)
    (J : String → ℚ) (t0 : Table) : Option (List (String × ℚ)) := do
  let t := _learn_from_prev prev_auctions t0
  let my_gold ← goldOf agent_id states
  let spendable := spendableOf my_gold bank_state
  let comp := _estimate_competitiveness states.length auctions.length
  let plan ← planFor auctions comp spendable J t
  return alloc (sortPlan plan) spendable

/-- Sum of the bid amounts in a returned bid map. -/
def sumBids (l : List (String × ℚ)) : ℚ := (l.map (fun p => p.2)).sum

/-- A live auction record on which planning cannot raise: `"num"` and
`"die"` parse, and `"bonus"`, if present, parses. -/
def WFAuction (a : RawAuction) : Prop :=
  (∃ z, a.num = Fld.val z) ∧ (∃ z, a.die = Fld.val z) ∧ a.bonus ≠ Fld.malformed

/-! ### Helper lemmas -/

theorem rhe_ge_floor (q : ℚ) : ⌊q⌋ ≤ roundHalfEven q := by
  simp only [roundHalfEven]
  split_ifs <;> omega

theorem rhe_le_half (q : ℚ) : (roundHalfEven q : ℚ) ≤ q + 1/2 := by
  have hf : (⌊q⌋ : ℚ) ≤ q := Int.floor_le q
  simp only [roundHalfEven]
  split_ifs with h1 h2 h3
  · linarith
  · push_cast
    rw [not_lt] at h1
    linarith
  · linarith
  · push_cast
    rw [not_lt] at h1
    linarith

theorem round2_min_bid {x : ℚ} (h : MIN_BID ≤ x) : MIN_BID ≤ round2 x := by
  rw [MIN_BID] at h ⊢
  have h1 : (100 : ℤ) ≤ ⌊x * 100⌋ := Int.le_floor.mpr (by push_cast; linarith)
  have h2 := rhe_ge_floor (x * 100)
  have h3 : (100 : ℚ) ≤ (roundHalfEven (x * 100) : ℚ) := by exact_mod_cast le_trans h1 h2
  rw [round2]
  linarith

theorem round2_le (x : ℚ) : round2 x ≤ x + 1/200 := by
  have := rhe_le_half (x * 100)
  rw [round2]
  linarith

theorem alloc_eq_nil (l : List (ℚ × String × ℚ)) :
    ∀ {r : ℚ}, r < MIN_BID → alloc l r = [] := by
  induction l with
  | nil => intro r _; rfl
  | cons e rest ih =>
    intro r h
    simp only [alloc]
    split_ifs with h1 h2
    · exact ih h
    · exact ih h
    · exact absurd (lt_of_le_of_lt (min_le_right _ _) h) h2

theorem alloc_min_bid (l : List (ℚ × String × ℚ)) :
    ∀ {r : ℚ} {p : String × ℚ}, p ∈ alloc l r → MIN_BID ≤ p.2 := by
  induction l with
  | nil => intro r p h; simp [alloc] at h
  | cons e rest ih =>
    intro r p h
    simp only [alloc] at h
    split_ifs at h with h1 h2
    · exact ih h
    · exact ih h
    · rcases List.mem_cons.mp h with hp | hp
      · subst hp
        exact round2_min_bid (not_lt.mp h2)
      · exact ih hp

theorem alloc_sum_le (l : List (ℚ × String × ℚ)) :
    ∀ r : ℚ, sumBids (alloc l r) ≤ max 0 r + ((alloc l r).length : ℚ) * (1/200) := by
  induction l with
  | nil =>
    intro r
    simp only [alloc, sumBids, List.map_nil, List.sum_nil, List.length_nil]
    have := le_max_left (0 : ℚ) r
    push_cast
    linarith
  | cons e rest ih =>
    intro r
    simp only [alloc]
    split_ifs with h1 h2
    · exact ih r
    · exact ih r
    · push_neg at h1
      have hbid : min e.2.2 r ≤ r := min_le_right _ _
      have hsum := ih (r - min e.2.2 r)
      have hr2 := round2_le (min e.2.2 r)
      have hmax1 : max 0 (r - min e.2.2 r) = r - min e.2.2 r :=
        max_eq_right (by linarith)
      have hmax2 : max 0 r = r := max_eq_right (le_of_lt h1.2)
      rw [hmax1] at hsum
      rw [hmax2]
      simp only [sumBids, List.map_cons, List.sum_cons, List.length_cons] at *
      push_cast
      linarith

theorem alloc_keys_zero (x : String) (l : List (ℚ × String × ℚ)) :
    ∀ r : ℚ, (∀ e ∈ l, e.2.1 = x → e.2.2 ≤ 0) →
      x ∉ (alloc l r).map Prod.fst := by
  induction l with
  | nil => intro r _; simp [alloc]
  | cons e rest ih =>
    intro r hall
    simp only [alloc]
    split_ifs with h1 h2
    · exact ih r fun e' he' => hall e' (List.mem_cons_of_mem _ he')
    · exact ih r fun e' he' => hall e' (List.mem_cons_of_mem _ he')
    · push_neg at h1
      have hne : e.2.1 ≠ x := fun hx =>
        absurd (hall e (List.mem_cons_self _ _) hx) (not_le.mpr h1.1)
      simp only [List.map_cons, List.mem_cons, not_or]
      exact ⟨fun hx => hne hx.symm,
        ih _ fun e' he' => hall e' (List.mem_cons_of_mem _ he')⟩

theorem sortPlan_perm (l : List (ℚ × String × ℚ)) : (sortPlan l).Perm l :=
  List.mergeSort_perm l _

theorem reserve_nonneg (g : ℚ) (b : Option BankState) :
    0 ≤ _reserve_for_interest g b := by
  cases b with
  | none => exact le_refl 0
  | some b =>
    simp only [_reserve_for_interest]
    split
    · split_ifs
      · exact le_refl 0
      · exact le_max_left _ _
    · exact le_refl 0

theorem spendable_nonneg (g : ℚ) (b : Option BankState) : 0 ≤ spendableOf g b :=
  le_max_left _ _

theorem expected_points_of_wf {a : RawAuction} (h : WFAuction a) :
    ∃ ev, _expected_points a = some ev := by
  rw [← Option.isSome_iff_exists]
  obtain ⟨⟨n, hn⟩, ⟨d, hd⟩, hb⟩ := h
  cases hb' : a.bonus with
  | malformed => exact absurd hb' hb
  | absent => simp [_expected_points, getInt, getIntD, hn, hd, hb']
  | val z => simp [_expected_points, getInt, getIntD, hn, hd, hb']

theorem auction_key_of_wf {a : RawAuction} (h : WFAuction a) :
    ∃ k, _auction_key a = some k := by
  rw [← Option.isSome_iff_exists]
  obtain ⟨⟨n, hn⟩, ⟨d, hd⟩, hb⟩ := h
  cases hb' : a.bonus with
  | malformed => exact absurd hb' hb
  | absent => simp [_auction_key, getInt, getIntD, hn, hd, hb']
  | val z => simp [_auction_key, getInt, getIntD, hn, hd, hb']

theorem suggest_low {a : RawAuction} {ev : ℚ} (hev : _expected_points a = some ev)
    (hlow : ev < IGNORE_LOW_EV) (c v j : ℚ) (t : Table) :
    _suggest_bid_for_auction a c v j t = some 0 := by
  simp [_suggest_bid_for_auction, hev, hlow]

theorem suggest_some_of_wf {a : RawAuction} (h : WFAuction a) (c v j : ℚ) (t : Table) :
    ∃ s, _suggest_bid_for_auction a c v j t = some s := by
  obtain ⟨ev, hev⟩ := expected_points_of_wf h
  obtain ⟨k, hk⟩ := auction_key_of_wf h
  by_cases hlow : ev < IGNORE_LOW_EV
  · exact ⟨0, suggest_low hev hlow c v j t⟩
  · rw [← Option.isSome_iff_exists]
    simp [_suggest_bid_for_auction, hev, hlow, hk]

theorem planFor_mem :
    ∀ (auctions : List (String × RawAuction)) {comp spend : ℚ} {J : String → ℚ}
      {t : Table} {plan : List (ℚ × String × ℚ)},
      planFor auctions comp spend J t = some plan →
      ∀ e ∈ plan, ∃ p, p ∈ auctions ∧ e.2.1 = p.1 ∧
        _suggest_bid_for_auction p.2 comp spend (J p.1) t = some e.2.2 := by
  intro auctions
  induction auctions with
  | nil =>
    intro comp spend J t plan h e he
    simp only [planFor, Option.some.injEq] at h
    subst h
    simp at he
  | cons p rest ih =>
    intro comp spend J t plan h e he
    simp only [planFor, Option.bind_eq_bind, Option.bind_eq_some, Option.pure_def,
      Option.some.injEq] at h
    obtain ⟨s, hs, ev, hev, tail, htail, hplan⟩ := h
    subst hplan
    rcases List.mem_cons.mp he with he | he
    · subst he
      exact ⟨p, List.mem_cons_self _ _, rfl, hs⟩
    · obtain ⟨q, hq, h1, h2⟩ := ih htail e he
      exact ⟨q, List.mem_cons_of_mem _ hq, h1, h2⟩

theorem planFor_of_wf :
    ∀ (auctions : List (String × RawAuction)),
      (∀ p ∈ auctions, WFAuction p.2) → ∀ (comp spend : ℚ) (J : String → ℚ) (t : Table),
      ∃ plan, planFor auctions comp spend J t = some plan := by
  intro auctions
  induction auctions with
  | nil => intro _ comp spend J t; exact ⟨[], rfl⟩
  | cons p rest ih =>
    intro h comp spend J t
    obtain ⟨s, hs⟩ := suggest_some_of_wf (h p (List.mem_cons_self _ _)) comp spend (J p.1) t
    obtain ⟨ev, hev⟩ := expected_points_of_wf (h p (List.mem_cons_self _ _))
    obtain ⟨tail, htail⟩ := ih (fun q hq => h q (List.mem_cons_of_mem _ hq)) comp spend J t
    rw [← Option.isSome_iff_exists]
    simp [planFor, hs, hev, htail]

theorem make_bid_some {aid : String} {rnd : ℤ} {states : List (String × Fld ℚ)}
    {auctions : List (String × RawAuction)} {prev : List RawOutcome}
    {bank : Option BankState} {J : String → ℚ} {t0 : Table}
    {bids : List (String × ℚ)}
    (h : make_bid aid rnd states auctions prev bank J t0 = some bids) :
    ∃ g plan, goldOf aid states = some g ∧
      planFor auctions (_estimate_competitiveness states.length auctions.length)
        (spendableOf g bank) J (_learn_from_prev prev t0) = some plan ∧
      bids = alloc (sortPlan plan) (spendableOf g bank) := by
  simp only [make_bid, Option.bind_eq_bind, Option.bind_eq_some, Option.pure_def,
    Option.some.injEq] at h
  obtain ⟨g, hg, plan, hplan, hbids⟩ := h
  exact ⟨g, plan, hg, hplan, hbids.symm⟩

theorem mem_eq_of_keys_nodup {α : Type} :
    ∀ {l : List (String × α)}, (l.map Prod.fst).Nodup →
      ∀ {k : String} {x y : α}, (k, x) ∈ l → (k, y) ∈ l → x = y := by
  intro l
  induction l with
  | nil => intro _ k x y hx; simp at hx
  | cons p rest ih =>
    intro hnd k x y hx hy
    simp only [List.map_cons, List.nodup_cons] at hnd
    rcases List.mem_cons.mp hx with hx | hx <;> rcases List.mem_cons.mp hy with hy | hy
    · exact (Prod.ext_iff.mp (hx.trans hy.symm)).2
    · exfalso
      apply hnd.1
      have : p.1 = k := by rw [← hx]
      rw [this]
      exact List.mem_map.mpr ⟨(k, y), hy, rfl⟩
    · exfalso
      apply hnd.1
      have : p.1 = k := by rw [← hy]
      rw [this]
      exact List.mem_map.mpr ⟨(k, x), hx, rfl⟩
    · exact ih hnd.2 hx hy

/-! ### Claim theorems -/

/-- Claim C3: for every auction with `N` dice of size `D` and flat bonus `B`,
`_expected_points` returns exactly `N*(D+1)/2 + B` (so e.g. `N=3, D=6, B=2`
yields `12.5`); on such well-formed records it is pure and total. -/
theorem C3_expected_points (N D B : ℤ) :
    _expected_points ⟨Fld.val D, Fld.val N, Fld.val B⟩
      = some ((N : ℚ) * ((D : ℚ) + 1) / 2 + (B : ℚ)) ∧
    _expected_points ⟨Fld.val 6, Fld.val 3, Fld.val 2⟩ = some (25/2) := by
  constructor
  · simp [_expected_points, getInt, getIntD]
  · norm_num [_expected_points, getInt, getIntD]

/-- Claim C4: the market learner's EWMA update: with no positive old
estimate a single observation sets the estimate to the observed winning bid;
with a positive old estimate the new estimate is
`decay*old + (1-decay)*observed`; hence two observations `v1`, `v2` (with
`v1 > 0`) from the cold state give exactly `d*v1 + (1-d)*v2`, both at the
level of `_ema_update` and through `_learn_from_prev` on a fixed shape. -/
theorem C4_ema_update (old v v1 v2 d : ℚ) (D N B : ℤ) :
    (old ≤ 0 → _ema_update old v d = v) ∧
    (0 < old → _ema_update old v d = d * old + (1 - d) * v) ∧
    (0 < v1 → _ema_update (_ema_update 0 v1 d) v2 d = d * v1 + (1 - d) * v2) ∧
    (0 < v1 →
      _learn_from_prev
          [⟨⟨Fld.val D, Fld.val N, Fld.val B⟩, [Fld.val v1]⟩,
           ⟨⟨Fld.val D, Fld.val N, Fld.val B⟩, [Fld.val v2]⟩]
          (fun _ => 0) (D, N, B)
        = LEARN_DECAY * v1 + (1 - LEARN_DECAY) * v2) := by
  refine ⟨?_, ?_, ?_, ?_⟩
  · intro h; simp [_ema_update, h]
  · intro h; rw [_ema_update, if_neg (not_le.mpr h)]
  · intro h
    have h1 : _ema_update 0 v1 d = v1 := by simp [_ema_update]
    rw [h1, _ema_update, if_neg (not_le.mpr h)]
  · intro h
    simp [_learn_from_prev, learnStep, learnRecord, _auction_key, getInt, getIntD,
      tupd, _ema_update, not_le.mpr h]

/-- Witness for C4 at the claim's concrete numbers `d=0.8`, `v1=100`,
`v2=50`: cold start sets `100`, the blend gives `90`. -/
theorem C4_ema_update_witness :
    _ema_update 0 100 (4/5) = 100 ∧
    _ema_update 100 50 (4/5) = 90 ∧
    _ema_update (_ema_update 0 100 (4/5)) 50 (4/5) = 90 := by
  refine ⟨(C4_ema_update 0 100 100 50 (4/5) 1 1 1).1 le_rfl, ?_, ?_⟩
  · have h := (C4_ema_update 100 50 100 50 (4/5) 1 1 1).2.1 (by norm_num)
    rw [h]; norm_num
  · have h := (C4_ema_update 0 0 100 50 (4/5) 1 1 1).2.2.1 (by norm_num)
    rw [h]; norm_num

/-- Claim C5: the budget planner is a pure function of the gold and the bank
schedule: `reserve = 0` with no schedule or rate `r ≤ 0`, otherwise
`clamp(min(C,G)·min(1/2, 2r), 0, G/2)`; `spendable = max(0, G·0.95 - reserve)`;
with `G=1000, r=0.1, C=2000` this gives `750`, with no schedule `950`. -/
theorem C5_budget_planner (G r C : ℚ) (rs ls : List ℚ) (bank : Option BankState) :
    _reserve_for_interest G none = 0 ∧
    (r ≤ 0 → _reserve_for_interest G (some ⟨r :: rs, C :: ls⟩) = 0) ∧
    (0 < r → _reserve_for_interest G (some ⟨r :: rs, C :: ls⟩)
        = max 0 (min (min C G * min (1/2) (2 * r)) (G * (1/2)))) ∧
    spendableOf G bank
      = max 0 (G * MAX_SPEND_FRACTION - _reserve_for_interest G bank) ∧
    spendableOf 1000 (some ⟨[1/10], [2000]⟩) = 750 ∧
    spendableOf 1000 none = 950 := by
  refine ⟨rfl, ?_, ?_, rfl, ?_, ?_⟩
  · intro h; simp [_reserve_for_interest, h]
  · intro h; simp [_reserve_for_interest, not_le.mpr h]
  · norm_num [spendableOf, _reserve_for_interest, MAX_SPEND_FRACTION]
  · norm_num [spendableOf, _reserve_for_interest, MAX_SPEND_FRACTION]

/-- Witness for C5 at the claim's concrete numbers: rate `0.1` (positive
branch) and rate `-1` (non-positive branch). -/
theorem C5_budget_planner_witness :
    _reserve_for_interest 1000 (some ⟨[(1:ℚ)/10], [2000]⟩)
      = max 0 (min (min 2000 1000 * min (1/2) (2 * (1/10))) (1000 * (1/2))) ∧
    _reserve_for_interest 1000 (some ⟨[(-1:ℚ)], [2000]⟩) = 0 := by
  constructor
  · exact (C5_budget_planner 1000 (1/10) 2000 [] [] none).2.2.1 (by norm_num)
  · exact (C5_budget_planner 1000 (-1) 2000 [] [] none).2.1 (by norm_num)

/-- Claim C6 (amended): `fair` is capped at the spendable budget, but the
tie-breaking jitter and the `MIN_BID` floor are applied after that cap, so
the suggested bid can exceed the round's spendable budget; it never exceeds
`max(MIN_BID, max(0, spendable) + jitter)`. -/
theorem C6_suggest_bound {a : RawAuction} {comp avail jit s : ℚ} {t : Table}
    (hs : _suggest_bid_for_auction a comp avail jit t = some s) :
    s ≤ max MIN_BID (max 0 avail + jit) := by
  have hmb : (0:ℚ) ≤ MIN_BID := by norm_num [MIN_BID]
  unfold _suggest_bid_for_auction at hs
  cases hev : _expected_points a with
  | none => rw [hev] at hs; simp at hs
  | some ev =>
    rw [hev] at hs
    simp only [Option.bind_eq_bind, Option.some_bind] at hs
    by_cases hlow : ev < IGNORE_LOW_EV
    · rw [if_pos hlow] at hs
      simp only [Option.pure_def, Option.some.injEq] at hs
      subst hs
      exact le_trans hmb (le_max_left _ _)
    · rw [if_neg hlow] at hs
      cases hk : _auction_key a with
      | none => rw [hk] at hs; simp at hs
      | some k =>
        rw [hk] at hs
        simp only [Option.bind_eq_bind, Option.some_bind, Option.pure_def,
          Option.some.injEq, CAP_BID_AT_GOLD, if_true] at hs
        subst hs
        set fair0 := if t k > 0 then t k * WIN_MARGIN
          else ALPHA_FAIR_PRICE_PER_POINT * ev * (3/4 + 1/4 * comp) with hfair0
        have h1 : min fair0 (max 0 avail) + jit ≤ max 0 avail + jit :=
          add_le_add_right (min_le_right _ _) _
        have h2 : max MIN_BID (min fair0 (max 0 avail) + jit)
            ≤ max MIN_BID (max 0 avail + jit) := max_le_max le_rfl h1
        have h3 : (0:ℚ) ≤ max MIN_BID (min fair0 (max 0 avail) + jit) :=
          le_trans hmb (le_max_left _ _)
        rw [max_eq_right h3]
        exact h2

/-- Counterexample to C6 as stated: a round with spendable budget `10`
(gold `200/19`, no bank schedule), one live auction `3d6+0`, no learned
history, and jitter `3 ≤ TIE_JITTER_MAX`: the suggested bid is `13 > 10`,
exceeding the round's spendable budget. -/
theorem C6_suggest_exceeds_spendable :
    spendableOf (200/19) none = 10 ∧
    (0:ℚ) ≤ 3 ∧ (3:ℚ) ≤ TIE_JITTER_MAX ∧
    _suggest_bid_for_auction ⟨Fld.val 6, Fld.val 3, Fld.val 0⟩ 1 10 3 (fun _ => 0)
      = some 13 ∧
    ¬((13:ℚ) ≤ 10) := by
  refine ⟨?_, by norm_num, by norm_num [TIE_JITTER_MAX], ?_, by norm_num⟩
  · norm_num [spendableOf, _reserve_for_interest, MAX_SPEND_FRACTION]
  · norm_num [_suggest_bid_for_auction, _expected_points, _auction_key, getInt,
      getIntD, IGNORE_LOW_EV, CAP_BID_AT_GOLD, MIN_BID, ALPHA_FAIR_PRICE_PER_POINT]

/-- Witness for C6's amended bound at the counterexample input: the
suggested bid `13` is within `max(MIN_BID, max(0, 10) + 3)`. -/
theorem C6_suggest_bound_witness :
    (13:ℚ) ≤ max MIN_BID (max 0 10 + 3) := by
  have hs : _suggest_bid_for_auction ⟨Fld.val 6, Fld.val 3, Fld.val 0⟩ 1 10 3
      (fun _ => 0) = some 13 := by
    norm_num [_suggest_bid_for_auction, _expected_points, _auction_key, getInt,
      getIntD, IGNORE_LOW_EV, CAP_BID_AT_GOLD, MIN_BID, ALPHA_FAIR_PRICE_PER_POINT]
  exact C6_suggest_bound hs

/-- Claim C7: in any successful round, an auction whose EV is below
`IGNORE_LOW_EV` gets a suggested bid of exactly `0` and its id never appears
in the returned bid map, regardless of learned history, competitiveness, or
remaining budget (auction ids are distinct, as in a Python dict). -/
theorem C7_low_ev_never_bid {agent : String} {rnd : ℤ}
    {states : List (String × Fld ℚ)} {auctions : List (String × RawAuction)}
    {prev : List RawOutcome} {bank : Option BankState} {J : String → ℚ}
    {t0 : Table} {bids : List (String × ℚ)} {a_id : String} {a : RawAuction}
    {ev g : ℚ}
    (hmb : make_bid agent rnd states auctions prev bank J t0 = some bids)
    (hg : goldOf agent states = some g)
    (hmem : (a_id, a) ∈ auctions)
    (hnd : (auctions.map Prod.fst).Nodup)
    (hev : _expected_points a = some ev)
    (hlow : ev < IGNORE_LOW_EV) :
    _suggest_bid_for_auction a
        (_estimate_competitiveness states.length auctions.length)
        (spendableOf g bank) (J a_id) (_learn_from_prev prev t0) = some 0 ∧
    a_id ∉ bids.map Prod.fst := by
  obtain ⟨g', plan, hg', hplan, hbids⟩ := make_bid_some hmb
  have hgg : g' = g := Option.some.inj (hg'.symm.trans hg)
  subst hgg
  refine ⟨suggest_low hev hlow _ _ _ _, ?_⟩
  subst hbids
  apply alloc_keys_zero
  intro e he heid
  have he' : e ∈ plan := ((sortPlan_perm plan).mem_iff).mp he
  obtain ⟨p, hp, hid, hsug⟩ := planFor_mem auctions hplan e he'
  obtain ⟨pid, pa⟩ := p
  have hkey : pid = a_id := hid.symm.trans heid
  subst hkey
  have hpa : pa = a := mem_eq_of_keys_nodup hnd hp hmem
  subst hpa
  rw [suggest_low hev hlow _ _ _ _] at hsug
  have : (0:ℚ) = e.2.2 := Option.some.inj hsug
  exact le_of_eq this.symm

/-- Witness for C7: a single `0d2+0` auction (EV `0 < 0.5`); the round
returns the empty bid map, the suggested bid is `0`, and `"a1"` is absent. -/
theorem C7_low_ev_never_bid_witness :
    _suggest_bid_for_auction ⟨Fld.val 2, Fld.val 0, Fld.val 0⟩
        (_estimate_competitiveness 1 1) (spendableOf 100 none) 0
        (_learn_from_prev [] (fun _ => 0)) = some 0 ∧
    "a1" ∉ ([] : List (String × ℚ)).map Prod.fst := by
  have hg : goldOf "me" [("me", Fld.val 100)] = some 100 := rfl
  have hs : spendableOf (100:ℚ) none = 95 := by
    norm_num [spendableOf, _reserve_for_interest, MAX_SPEND_FRACTION]
  have hc : _estimate_competitiveness 1 1 = 1 := by
    norm_num [_estimate_competitiveness]
  have hplan :
      planFor [("a1", (⟨Fld.val 2, Fld.val 0, Fld.val 0⟩ : RawAuction))] 1 95
        (fun _ => 0) (_learn_from_prev [] (fun _ => 0))
      = some [(0 / max 1 0, "a1", 0)] := by
    norm_num [planFor, _learn_from_prev, _suggest_bid_for_auction, _expected_points,
      _auction_key, getInt, getIntD, IGNORE_LOW_EV]
  have hsort : sortPlan [((0:ℚ) / max 1 0, "a1", (0:ℚ))] = [(0 / max 1 0, "a1", 0)] := by
    simp [sortPlan]
  have halloc : alloc [((0:ℚ) / max 1 0, "a1", (0:ℚ))] 95 = [] := by
    norm_num [alloc]
  have hmb : make_bid "me" 1 [("me", Fld.val 100)]
      [("a1", ⟨Fld.val 2, Fld.val 0, Fld.val 0⟩)] [] none (fun _ => 0) (fun _ => 0)
      = some [] := by
    simp only [make_bid, hg, Option.bind_eq_bind, Option.some_bind, Option.pure_def,
      List.length_cons, List.length_nil, hs, hc, hplan, hsort, halloc]
  have hmem : ("a1", (⟨Fld.val 2, Fld.val 0, Fld.val 0⟩ : RawAuction))
      ∈ [("a1", (⟨Fld.val 2, Fld.val 0, Fld.val 0⟩ : RawAuction))] := by simp
  have hnd : (([("a1", (⟨Fld.val 2, Fld.val 0, Fld.val 0⟩ : RawAuction))]).map
      Prod.fst).Nodup := by simp
  have hev : _expected_points (⟨Fld.val 2, Fld.val 0, Fld.val 0⟩ : RawAuction)
      = some 0 := by norm_num [_expected_points, getInt, getIntD]
  have hlow : (0:ℚ) < IGNORE_LOW_EV := by norm_num [IGNORE_LOW_EV]
  have h := C7_low_ev_never_bid hmb hg hmem hnd hev hlow
  simpa using h

/-- Claim C1 (amended): in any successful round every returned bid is
non-negative and at least `MIN_BID`, and the sum of the pre-rounding
committed amounts never exceeds the spendable budget; since each recorded
bid is its committed amount rounded to two decimals, the sum of the
returned bids can exceed `spendable` only by the rounding slack, at most
`1/200` per returned bid. -/
theorem C1_bid_bounds {agent : String} {rnd : ℤ} {states : List (String × Fld ℚ)}
    {auctions : List (String × RawAuction)} {prev : List RawOutcome}
    {bank : Option BankState} {J : String → ℚ} {t0 : Table}
    {bids : List (String × ℚ)} {g : ℚ}
    (hmb : make_bid agent rnd states auctions prev bank J t0 = some bids)
    (hg : goldOf agent states = some g) :
    (∀ p ∈ bids, (0:ℚ) ≤ p.2 ∧ MIN_BID ≤ p.2) ∧
    sumBids bids ≤ spendableOf g bank + (bids.length : ℚ) * (1/200) := by
  obtain ⟨g', plan, hg', hplan, hbids⟩ := make_bid_some hmb
  have hgg : g' = g := Option.some.inj (hg'.symm.trans hg)
  rw [hgg] at hbids
  subst hbids
  constructor
  · intro p hp
    have h1 := alloc_min_bid _ hp
    exact ⟨le_trans (by norm_num [MIN_BID]) h1, h1⟩
  · have h := alloc_sum_le (sortPlan plan) (spendableOf g bank)
    rw [max_eq_right (spendable_nonneg g bank)] at h
    exact h

/-- Counterexample to C1 as stated: gold `503/475` (spendable `1.006`), one
`3d6+0` auction, no history, zero jitter. The committed amount `1.006` is
recorded as `round(1.006, 2) = 1.01`, so the round returns `{"a1": 1.01}`
whose total `1.01` exceeds the round's spendable budget `1.006`. -/
theorem C1_sum_exceeds_spendable :
    make_bid "me" 1 [("me", Fld.val (503/475))]
        [("a1", ⟨Fld.val 6, Fld.val 3, Fld.val 0⟩)] [] none (fun _ => 0) (fun _ => 0)
      = some [("a1", 101/100)] ∧
    spendableOf (503/475) none < sumBids [("a1", 101/100)] := by
  constructor
  · have hg : goldOf "me" [("me", Fld.val (503/475))] = some (503/475) := rfl
    have hs : spendableOf ((503:ℚ)/475) none = 503/500 := by
      norm_num [spendableOf, _reserve_for_interest, MAX_SPEND_FRACTION]
    have hc : _estimate_competitiveness 1 1 = 1 := by
      norm_num [_estimate_competitiveness]
    have hplan :
        planFor [("a1", (⟨Fld.val 6, Fld.val 3, Fld.val 0⟩ : RawAuction))] 1 (503/500)
          (fun _ => 0) (_learn_from_prev [] (fun _ => 0))
        = some [((21/2) / max 1 (503/500), "a1", 503/500)] := by
      norm_num [planFor, _learn_from_prev, _suggest_bid_for_auction, _expected_points,
        _auction_key, getInt, getIntD, IGNORE_LOW_EV, CAP_BID_AT_GOLD, MIN_BID,
        ALPHA_FAIR_PRICE_PER_POINT]
    have hsort : sortPlan [((21:ℚ)/2 / max 1 (503/500), "a1", (503:ℚ)/500)]
        = [((21:ℚ)/2 / max 1 (503/500), "a1", (503:ℚ)/500)] := by
      simp [sortPlan]
    have halloc : alloc [((21:ℚ)/2 / max 1 (503/500), "a1", (503:ℚ)/500)] (503/500)
        = [("a1", 101/100)] := by
      norm_num [alloc, MIN_BID, round2, roundHalfEven, Int.floor_eq_iff]
    simp only [make_bid, hg, Option.bind_eq_bind, Option.some_bind, Option.pure_def,
      List.length_cons, List.length_nil, hs, hc, hplan, hsort, halloc]
  · norm_num [sumBids, spendableOf, _reserve_for_interest, MAX_SPEND_FRACTION]

/-- Witness for C1's amended bounds at a plain round: gold `100`, one `3d6`
auction, zero jitter; the returned map is `{"a1": 95}` and the bounds hold. -/
theorem C1_bid_bounds_witness :
    ((0:ℚ) ≤ 95 ∧ MIN_BID ≤ (95:ℚ)) ∧
    sumBids [("a1", (95:ℚ))] ≤ spendableOf 100 none + 1 * (1/200) := by
  have hg : goldOf "me" [("me", Fld.val 100)] = some 100 := rfl
  have hs : spendableOf (100:ℚ) none = 95 := by
    norm_num [spendableOf, _reserve_for_interest, MAX_SPEND_FRACTION]
  have hc : _estimate_competitiveness 1 1 = 1 := by
    norm_num [_estimate_competitiveness]
  have hplan :
      planFor [("a1", (⟨Fld.val 6, Fld.val 3, Fld.val 0⟩ : RawAuction))] 1 95
        (fun _ => 0) (_learn_from_prev [] (fun _ => 0))
      = some [((21/2) / max 1 95, "a1", 95)] := by
    norm_num [planFor, _learn_from_prev, _suggest_bid_for_auction, _expected_points,
      _auction_key, getInt, getIntD, IGNORE_LOW_EV, CAP_BID_AT_GOLD, MIN_BID,
      ALPHA_FAIR_PRICE_PER_POINT]
  have hsort : sortPlan [((21:ℚ)/2 / max 1 95, "a1", (95:ℚ))]
      = [((21:ℚ)/2 / max 1 95, "a1", (95:ℚ))] := by
    simp [sortPlan]
  have halloc : alloc [((21:ℚ)/2 / max 1 95, "a1", (95:ℚ))] 95
      = [("a1", 95)] := by
    norm_num [alloc, MIN_BID, round2, roundHalfEven, Int.floor_eq_iff]
  have hmb : make_bid "me" 1 [("me", Fld.val 100)]
      [("a1", ⟨Fld.val 6, Fld.val 3, Fld.val 0⟩)] [] none (fun _ => 0) (fun _ => 0)
      = some [("a1", 95)] := by
    simp only [make_bid, hg, Option.bind_eq_bind, Option.some_bind, Option.pure_def,
      List.length_cons, List.length_nil, hs, hc, hplan, hsort, halloc]
  have h := C1_bid_bounds hmb hg
  refine ⟨h.1 ("a1", 95) (by simp), ?_⟩
  have h2 := h.2
  simpa using h2

theorem goldOf_of_no_malformed :
    ∀ (states : List (String × Fld ℚ)) (agent : String),
      (∀ p ∈ states, p.2 ≠ Fld.malformed) → ∃ g, goldOf agent states = some g := by
  intro states
  induction states with
  | nil => intro agent _; exact ⟨0, rfl⟩
  | cons p rest ih =>
    intro agent h
    obtain ⟨k, v⟩ := p
    by_cases hk : (agent == k) = true
    · cases hv : v with
      | malformed =>
        exact absurd (by simp [hv]) (h (k, v) (List.mem_cons_self _ _))
      | absent => exact ⟨0, by simp [goldOf, List.lookup, hk, hv]⟩
      | val g => exact ⟨g, by simp [goldOf, List.lookup, hk, hv]⟩
    · have hk' : (agent == k) = false := by simpa using hk
      obtain ⟨g, hg⟩ := ih agent (fun q hq => h q (List.mem_cons_of_mem _ hq))
      refine ⟨g, ?_⟩
      unfold goldOf at hg ⊢
      simp only [List.lookup, hk']
      exact hg

/-- Claim C2 (amended): an exception in the learning step never propagates
out of `make_bid` (the `prev_auctions` argument here is arbitrary, malformed
records included), and on well-formed state and auction records the round
always produces a bid map; but an unexpected exception during
planning/allocation — e.g. an auction record with a missing or unparsable
field — propagates to the caller instead of degrading to an empty bid map. -/
theorem C2_no_raise_on_wf_planning_inputs {agent : String} {rnd : ℤ}
    {states : List (String × Fld ℚ)} {auctions : List (String × RawAuction)}
    {prev : List RawOutcome} {bank : Option BankState} {J : String → ℚ} {t0 : Table}
    (hst : ∀ p ∈ states, p.2 ≠ Fld.malformed)
    (hau : ∀ p ∈ auctions, WFAuction p.2) :
    make_bid agent rnd states auctions prev bank J t0 ≠ none := by
  obtain ⟨g, hg⟩ := goldOf_of_no_malformed states agent hst
  obtain ⟨plan, hplan⟩ := planFor_of_wf auctions hau
    (_estimate_competitiveness states.length auctions.length)
    (spendableOf g bank) J (_learn_from_prev prev t0)
  simp [make_bid, hg, hplan]

/-- Counterexample to C2 as stated: a round whose only auction record lacks
the `"num"` field. The planning loop is not guarded by any `try`, so the
lookup error propagates out of `make_bid` (modelled as `none`) instead of
degrading to an empty bid map. -/
theorem C2_raises_on_malformed_auction :
    make_bid "me" 1 [("me", Fld.val 100)]
        [("a1", ⟨Fld.val 6, Fld.absent, Fld.val 0⟩)] [] none (fun _ => 0) (fun _ => 0)
      = none := by
  have hg : goldOf "me" [("me", Fld.val 100)] = some 100 := rfl
  have hplan : planFor [("a1", (⟨Fld.val 6, Fld.absent, Fld.val 0⟩ : RawAuction))]
      (_estimate_competitiveness 1 1) (spendableOf 100 none) (fun _ => 0)
      (_learn_from_prev [] (fun _ => 0)) = none := by
    simp [planFor, _suggest_bid_for_auction, _expected_points, getInt]
  simp [make_bid, hg, hplan]

/-- Witness for C2: with a malformed previous-round outcome record but
well-formed states and auctions, the round still returns a bid map. -/
theorem C2_no_raise_witness :
    make_bid "me" 1 [("me", Fld.val 100)]
        [("a1", ⟨Fld.val 6, Fld.val 3, Fld.val 0⟩)]
        [⟨⟨Fld.malformed, Fld.val 3, Fld.val 0⟩, [Fld.val 9]⟩] none
        (fun _ => 0) (fun _ => 0)
      ≠ none := by
  have hst : ∀ p ∈ [("me", Fld.val (100:ℚ))], p.2 ≠ Fld.malformed := by
    intro p hp
    simp at hp
    subst hp
    simp
  have hau : ∀ p ∈ [("a1", (⟨Fld.val 6, Fld.val 3, Fld.val 0⟩ : RawAuction))],
      WFAuction p.2 := by
    intro p hp
    simp at hp
    subst hp
    exact ⟨⟨3, rfl⟩, ⟨6, rfl⟩, by simp⟩
  exact C2_no_raise_on_wf_planning_inputs hst hau

/-- Claim C8 (amended): a malformed (or bid-less) previous-round outcome
record is skipped individually — it contributes nothing while learning
proceeds for every other record in the batch; a malformed live auction
record, however, is not skipped: it aborts the whole round. -/
theorem C8_bad_outcome_skipped (t : Table) (pre post : List RawOutcome)
    (bad : RawOutcome) (h : learnRecord bad = none) :
    _learn_from_prev (pre ++ bad :: post) t = _learn_from_prev (pre ++ post) t := by
  unfold _learn_from_prev
  rw [List.foldl_append, List.foldl_append, List.foldl_cons]
  have hstep : learnStep (List.foldl learnStep t pre) bad = List.foldl learnStep t pre := by
    simp [learnStep, h]
  rw [hstep]

/-- Counterexample to C8 as stated for live auctions: a batch with one
well-formed auction and one whose `"num"` field is unparsable. The bad
record is not skipped individually: the whole round aborts (raises), and
bidding does not proceed for the well-formed auction either. -/
theorem C8_bad_auction_aborts :
    make_bid "me" 1 [("me", Fld.val 100)]
        [("g1", ⟨Fld.val 6, Fld.val 3, Fld.val 0⟩),
         ("b1", ⟨Fld.val 6, Fld.malformed, Fld.val 0⟩)]
        [] none (fun _ => 0) (fun _ => 0)
      = none := by
  have hg : goldOf "me" [("me", Fld.val 100)] = some 100 := rfl
  have hplan : planFor
      [("g1", (⟨Fld.val 6, Fld.val 3, Fld.val 0⟩ : RawAuction)),
       ("b1", (⟨Fld.val 6, Fld.malformed, Fld.val 0⟩ : RawAuction))]
      (_estimate_competitiveness 1 2) (spendableOf 100 none) (fun _ => 0)
      (_learn_from_prev [] (fun _ => 0)) = none := by
    have hsug : _suggest_bid_for_auction (⟨Fld.val 6, Fld.val 3, Fld.val 0⟩ : RawAuction)
        (_estimate_competitiveness 1 2) (spendableOf 100 none) 0
        (_learn_from_prev [] (fun _ => 0)) ≠ none := by
      have hwf : WFAuction (⟨Fld.val 6, Fld.val 3, Fld.val 0⟩ : RawAuction) :=
        ⟨⟨3, rfl⟩, ⟨6, rfl⟩, by simp⟩
      obtain ⟨s, hs⟩ := suggest_some_of_wf hwf (_estimate_competitiveness 1 2)
        (spendableOf 100 none) 0 (_learn_from_prev [] (fun _ => 0))
      simp [hs]
    obtain ⟨s, hs⟩ := Option.ne_none_iff_exists'.mp hsug
    have hev : _expected_points (⟨Fld.val 6, Fld.val 3, Fld.val 0⟩ : RawAuction)
        = some (21/2) := by
      norm_num [_expected_points, getInt, getIntD]
    simp [planFor, hs, hev, _suggest_bid_for_auction, _expected_points, getInt]
  simp [make_bid, hg, hplan]

/-- Witness for C8: a batch of a well-formed outcome followed by an outcome
whose `"die"` field is unparsable learns exactly what the batch without the
bad record learns. -/
theorem C8_bad_outcome_skipped_witness :
    _learn_from_prev
        [⟨⟨Fld.val 6, Fld.val 3, Fld.val 0⟩, [Fld.val 7]⟩,
         ⟨⟨Fld.malformed, Fld.val 3, Fld.val 0⟩, [Fld.val 9]⟩] (fun _ => 0)
      = _learn_from_prev [⟨⟨Fld.val 6, Fld.val 3, Fld.val 0⟩, [Fld.val 7]⟩]
          (fun _ => 0) := by
  have h : learnRecord ⟨⟨Fld.malformed, Fld.val 3, Fld.val 0⟩, [Fld.val 9]⟩ = none := by
    simp [learnRecord, _auction_key, getInt]
  exact C8_bad_outcome_skipped (fun _ => 0)
    [⟨⟨Fld.val 6, Fld.val 3, Fld.val 0⟩, [Fld.val 7]⟩] [] _ h

/-- Claim C9 (amended): provided the bidder's own state entry parses and
every live auction record is well-formed, a round with zero live auctions,
or in which the bidder's gold is zero (the absent-bidder case also yields
gold `0`), returns the empty bid map and does not raise. -/
theorem C9_empty_round {agent : String} {rnd : ℤ} {states : List (String × Fld ℚ)}
    {auctions : List (String × RawAuction)} {prev : List RawOutcome}
    {bank : Option BankState} {J : String → ℚ} {t0 : Table} {g : ℚ}
    (hg : goldOf agent states = some g)
    (hau : ∀ p ∈ auctions, WFAuction p.2)
    (hcase : auctions = [] ∨ g = 0) :
    make_bid agent rnd states auctions prev bank J t0 = some [] := by
  obtain ⟨plan, hplan⟩ := planFor_of_wf auctions hau
    (_estimate_competitiveness states.length auctions.length)
    (spendableOf g bank) J (_learn_from_prev prev t0)
  rcases hcase with hc | hc
  · subst hc
    simp [make_bid, hg, planFor, sortPlan, alloc]
  · subst hc
    have hsp : spendableOf 0 bank = 0 := by
      have hr := reserve_nonneg 0 bank
      rw [spendableOf, max_eq_left (by rw [MAX_SPEND_FRACTION]; linarith)]
    have halloc := alloc_eq_nil (sortPlan plan)
      (show (0:ℚ) < MIN_BID by norm_num [MIN_BID])
    rw [hsp] at hplan
    simp [make_bid, hg, hplan, hsp, halloc]

/-- Counterexample to C9 as stated: a round with zero live auctions but an
unparsable `"gold"` field in the bidder's own state entry raises
(`float(...)` fails) instead of returning an empty bid map. -/
theorem C9_raises_on_malformed_state :
    make_bid "me" 1 [("me", Fld.malformed)] [] [] none (fun _ => 0) (fun _ => 0)
      = none := by
  have hg : goldOf "me" [("me", Fld.malformed)] = none := rfl
  simp [make_bid, hg]

/-- Witness for C9: gold `0` with one well-formed live auction returns the
empty bid map. -/
theorem C9_empty_round_witness :
    make_bid "me" 1 [("me", Fld.val 0)]
        [("a1", ⟨Fld.val 6, Fld.val 3, Fld.val 0⟩)] [] none (fun _ => 0) (fun _ => 0)
      = some [] := by
  have hg : goldOf "me" [("me", Fld.val 0)] = some 0 := rfl
  have hau : ∀ p ∈ [("a1", (⟨Fld.val 6, Fld.val 3, Fld.val 0⟩ : RawAuction))],
      WFAuction p.2 := by
    intro p hp
    simp at hp
    subst hp
    exact ⟨⟨3, rfl⟩, ⟨6, rfl⟩, by simp⟩
  exact C9_empty_round hg hau (Or.inr rfl)

/-- Claim C10: whenever the round's spendable budget is strictly below
`MIN_BID` (including spendable `0`), a successful `make_bid` returns the
empty bid map — every candidate commitment `min(proposed, remaining)` falls
below the floor and is skipped — even when positive-EV auctions with
positive suggested bids exist. -/
theorem C10_spendable_below_min {agent : String} {rnd : ℤ}
    {states : List (String × Fld ℚ)} {auctions : List (String × RawAuction)}
    {prev : List RawOutcome} {bank : Option BankState} {J : String → ℚ}
    {t0 : Table} {bids : List (String × ℚ)} {g : ℚ}
    (hmb : make_bid agent rnd states auctions prev bank J t0 = some bids)
    (hg : goldOf agent states = some g)
    (hlt : spendableOf g bank < MIN_BID) :
    bids = [] := by
  obtain ⟨g', plan, hg', hplan, hbids⟩ := make_bid_some hmb
  have hgg : g' = g := Option.some.inj (hg'.symm.trans hg)
  rw [hgg] at hbids
  rw [hbids]
  exact alloc_eq_nil _ hlt

/-- Witness for C10: gold `1/2` (spendable `19/40 < 1`) with a live `3d6`
auction whose suggested bid is `1 > 0`; the returned map is empty. -/
theorem C10_spendable_below_min_witness :
    spendableOf ((1:ℚ)/2) none < MIN_BID ∧
    make_bid "me" 1 [("me", Fld.val (1/2))]
        [("a1", ⟨Fld.val 6, Fld.val 3, Fld.val 0⟩)] [] none (fun _ => 0) (fun _ => 0)
      = some [] := by
  have hg : goldOf "me" [("me", Fld.val (1/2))] = some (1/2) := rfl
  have hs : spendableOf ((1:ℚ)/2) none = 19/40 := by
    norm_num [spendableOf, _reserve_for_interest, MAX_SPEND_FRACTION]
  have hc : _estimate_competitiveness 1 1 = 1 := by
    norm_num [_estimate_competitiveness]
  have hplan :
      planFor [("a1", (⟨Fld.val 6, Fld.val 3, Fld.val 0⟩ : RawAuction))] 1 (19/40)
        (fun _ => 0) (_learn_from_prev [] (fun _ => 0))
      = some [((21/2) / max 1 1, "a1", 1)] := by
    norm_num [planFor, _learn_from_prev, _suggest_bid_for_auction, _expected_points,
      _auction_key, getInt, getIntD, IGNORE_LOW_EV, CAP_BID_AT_GOLD, MIN_BID,
      ALPHA_FAIR_PRICE_PER_POINT, min_def, max_def]
  have hsort : sortPlan [((21:ℚ)/2 / max 1 1, "a1", (1:ℚ))]
      = [((21:ℚ)/2 / max 1 1, "a1", (1:ℚ))] := by
    simp [sortPlan]
  have halloc : alloc [((21:ℚ)/2 / max 1 1, "a1", (1:ℚ))] (19/40) = [] := by
    norm_num [alloc, MIN_BID, min_def]
  have hmb : make_bid "me" 1 [("me", Fld.val (1/2))]
      [("a1", ⟨Fld.val 6, Fld.val 3, Fld.val 0⟩)] [] none (fun _ => 0) (fun _ => 0)
      = some [] := by
    simp only [make_bid, hg, Option.bind_eq_bind, Option.some_bind, Option.pure_def,
      List.length_cons, List.length_nil, hs, hc, hplan, hsort, halloc]
  have hlt : spendableOf ((1:ℚ)/2) none < MIN_BID := by
    rw [hs]; norm_num [MIN_BID]
  exact ⟨hlt, hmb.trans (congrArg some (C10_spendable_below_min hmb hg hlt))⟩
